import Mathlib

/-!
Verification of the zhankai repository-to-markdown tool against its
natural-language specification.

The development shallowly embeds the core of the tool:
* `src/config/constants.ts` — the fixed configuration constants;
* `src/utils/file.ts` (`fileUtils`) — language tagging, image detection,
  unique-filename probing, per-file markdown emission (`processFile`),
  recursive document assembly (`traverseDirectory`) and the ASCII structure
  renderer (`generateFileStructure`);
* `src/utils/api.ts` (`apiUtils`) — the query transport `sendQueryToRukh`
  with its retry loop, and the response file-update pipeline
  (`processResponseForFileUpdates`, `updateFile`).

File-system state is explicit (directory trees, lists of existing paths),
HTTP attempts are an oracle `Nat → AttemptResult`, and every JavaScript
runtime facility the code relies on (`path.join`/`extname`/`dirname`,
`String.prototype.split`, `JSON.parse`, `JSON.stringify`, the file-spec
regular expression) is translated to an executable Lean function following
the Node/ECMAScript semantics.
-/

namespace Zhankai

/-- Splits a character list at every occurrence of `sep`, JavaScript
`String.prototype.split` style: the result is always non-empty and
separators at the ends produce empty segments. -/
def splitChar (sep : Char) : List Char → List (List Char)
  | [] => [[]]
  | c :: rest =>
    if c = sep then [] :: splitChar sep rest
    else
      match splitChar sep rest with
      | [] => [[c]]
      | h :: t => (c :: h) :: t

/-- JavaScript `content.split("\n")` on a Lean `String`. -/
def jsSplitNl (s : String) : List String :=
  (splitChar '\n' s.data).map String.mk

/-- JavaScript `Array.prototype.join(sep)`. -/
def joinWith (sep : String) : List String → String
  | [] => ""
  | [x] => x
  | x :: y :: xs => x ++ sep ++ joinWith sep (y :: xs)

/-- ASCII lower-casing of one character (sufficient for file extensions,
which is the only place the code calls `toLowerCase`). -/
def asciiLowerChar (c : Char) : Char :=
  if 'A' ≤ c ∧ c ≤ 'Z' then Char.ofNat (c.toNat + 32) else c

/-- ASCII `String.prototype.toLowerCase`. -/
def asciiLower (s : String) : String :=
  String.mk (s.data.map asciiLowerChar)

/-- Index of the last occurrence of `c`, if any. -/
def lastIdxOf (c : Char) : List Char → Option Nat
  | [] => none
  | x :: xs =>
    match lastIdxOf c xs with
    | some i => some (i + 1)
    | none => if x = c then some 0 else none

/-- Characters of a path after its last `/` (the POSIX basename section). -/
def afterLastSlash (l : List Char) : List Char :=
  match lastIdxOf '/' l with
  | none => l
  | some i => l.drop (i + 1)

/-- Node `path.posix.extname`: the suffix of the basename from its last dot,
empty when the basename has no dot, starts with its only dot, or is `..`. -/
def pathExtname (p : String) : String :=
  let b := afterLastSlash p.data
  match lastIdxOf '.' b with
  | none => ""
  | some 0 => ""
  | some i => if b = ['.', '.'] then "" else String.mk (b.drop i)

/-- Node `path.posix.basename` (without the extension-stripping variant). -/
def pathBasename (p : String) : String :=
  String.mk (afterLastSlash p.data)

/-- One step of Node `normalizeString`: fold the `/`-separated components,
resolving `.` and `..`.  The accumulator holds the kept components in
reverse order; `allowAboveRoot` is true for relative paths, where leading
`..` components are preserved. -/
def normParts (allowAboveRoot : Bool) : List String → List String → List String
  | stack, [] => stack.reverse
  | stack, p :: ps =>
    if p = "" ∨ p = "." then normParts allowAboveRoot stack ps
    else if p = ".." then
      match stack with
      | top :: rest =>
        if top = ".." then normParts allowAboveRoot (p :: stack) ps
        else normParts allowAboveRoot rest ps
      | [] =>
        if allowAboveRoot then normParts allowAboveRoot [p] ps
        else normParts allowAboveRoot [] ps
    else normParts allowAboveRoot (p :: stack) ps

/-- Node `path.posix.normalize`. -/
def posixNormalize (p : String) : String :=
  if p = "" then "."
  else
    let isAbs := p.data.head? = some '/'
    let trailingSep := p.data.getLast? = some '/'
    let parts := (splitChar '/' p.data).map String.mk
    let body := joinWith "/" (normParts (!isAbs) [] parts)
    if body = "" then
      if isAbs then "/" else if trailingSep then "./" else "."
    else
      let withTrail := body ++ (if trailingSep then "/" else "")
      if isAbs then "/" ++ withTrail else withTrail

/-- Node `path.posix.join` restricted to two segments, as used by
`updateFile` and by the output-directory paths: empty segments are skipped,
the rest are concatenated with `/` and normalized. -/
def posixJoin2 (a b : String) : String :=
  if a = "" ∧ b = "" then "."
  else if a = "" then posixNormalize b
  else if b = "" then posixNormalize a
  else posixNormalize (a ++ "/" ++ b)

/-- Node `path.posix.dirname`. -/
def posixDirname (p : String) : String :=
  if p = "" then "."
  else
    let cs := p.data
    let hasRoot := cs.head? = some '/'
    let stripped := (cs.reverse.dropWhile (· = '/')).reverse
    match lastIdxOf '/' stripped with
    | some e =>
      if 1 ≤ e then
        if hasRoot ∧ e = 1 then "//" else String.mk (cs.take e)
      else if hasRoot then "/" else "."
    | none => if hasRoot then "/" else "."

/-- Decimal digits, least significant first, with explicit fuel so that the
definition is structurally recursive and kernel-reducible. -/
def toDigitsRevAux : Nat → Nat → List Nat
  | 0, _ => []
  | fuel + 1, n => if n = 0 then [] else (n % 10) :: toDigitsRevAux fuel (n / 10)

/-- Decimal digits of a natural number, least significant first
(empty for zero).  `n` itself is always enough fuel. -/
def toDigitsRev (n : Nat) : List Nat := toDigitsRevAux n n

/-- Evaluation of a least-significant-first digit list. -/
def fromDigitsRev : List Nat → Nat
  | [] => 0
  | d :: ds => d + 10 * fromDigitsRev ds

/-- Digit-to-character map for decimal printing. -/
def digitToChar (d : Nat) : Char := Char.ofNat (48 + d)

/-- Decimal rendering of a natural number, the semantics of a JavaScript
template literal `${n}` for a non-negative integer. -/
def natToString (n : Nat) : String :=
  if n = 0 then "0" else String.mk ((toDigitsRev n).reverse.map digitToChar)

/-! Application constants, from `src/config/constants.ts`. -/

namespace constants

/-- Directory name for Zhankai output. -/
def ZHANKAI_DIR : String := "zhankai"

/-- Maximum file lines before truncation. -/
def MAX_FILE_LINES : Nat := 500

/-- Preview lines for truncated files. -/
def PREVIEW_LINES : Nat := 30

/-- URL for the Rukh API. -/
def RUKH_API_URL : String := "https://rukh.w3hc.org/ask"

/-- Maximum API retry attempts. -/
def MAX_RETRIES : Nat := 5

/-- Delay between retry attempts in milliseconds. -/
def RETRY_DELAY : Nat := 5000

/-- Default timeout for API requests in milliseconds. -/
def DEFAULT_TIMEOUT_MS : Nat := 120000

/-- Items to exclude from processing. -/
def EXCLUDED_ITEMS : List String := ["LICENSE", ".git"]

/-- Default items to add to the ignore list. -/
def DEFAULT_IGNORES : List String :=
  ["node_modules", ".git", "zhankai", "dist", "build"]

end constants

/-- Image file extensions, from `src/config/constants.ts`. -/
def imageExtensions : List String :=
  [".png", ".jpg", ".jpeg", ".gif", ".bmp", ".ico", ".svg"]

/-- Language mappings for code highlighting, from `src/config/constants.ts`. -/
def languageMap : List (String × String) :=
  [(".ts", "typescript"), (".js", "javascript"), (".json", "json"),
   (".md", "markdown"), (".py", "python"), (".rb", "ruby"),
   (".java", "java"), (".c", "c"), (".cpp", "cpp"), (".cs", "csharp"),
   (".html", "html"), (".css", "css"), (".php", "php"), (".go", "go"),
   (".rs", "rust"), (".swift", "swift"), (".kt", "kotlin"),
   (".scala", "scala"), (".sh", "bash"), (".yaml", "yaml"),
   (".yml", "yaml"), (".xml", "xml"), (".sql", "sql"), (".r", "r"),
   (".m", "matlab")]

namespace fileUtils

/-- `fileUtils.isImageFile`: extension membership in `imageExtensions`,
case-insensitively. -/
def isImageFile (filePath : String) : Bool :=
  imageExtensions.contains (asciiLower (pathExtname filePath))

/-- `fileUtils.getLanguageTag`: `languageMap[ext] || ""`. -/
def getLanguageTag (filePath : String) : String :=
  let ext := asciiLower (pathExtname filePath)
  ((languageMap.find? (fun kv => kv.1 == ext)).map Prod.snd).getD ""

/-- Result of `fileUtils.processFile`: the markdown text appended to the
output file, and whether `fs.readFile` was invoked on the source file. -/
structure ProcessedFile where
  emitted : String
  readAttempted : Bool
deriving DecidableEq, Repr

/-- `fileUtils.processFile`.  `readResult` is the outcome of
`fs.readFile(filePath, "utf8")` (`none` models a read failure); it is only
consulted on the non-image branch, exactly as in the code.  The extension
lookups receive `filePath` in the source; since `path.extname` only looks
at the basename, passing the entry name (as the traversal model does) is
equivalent. -/
def processFile (filePath relativePath : String) (readResult : Option String) :
    ProcessedFile :=
  let langTag := getLanguageTag filePath
  let header := "\n### " ++ relativePath ++ "\n\n" ++ "```" ++ langTag ++ "\n"
  if isImageFile filePath then
    ⟨header ++ "[This is an image file]", false⟩
  else
    match readResult with
    | some content =>
      let lines := jsSplitNl content
      if lines.length > constants.MAX_FILE_LINES then
        ⟨header ++ joinWith "\n" (lines.take constants.PREVIEW_LINES) ++
          "\n```\n" ++
          "\n[This file was cut: it has more than " ++
          natToString constants.MAX_FILE_LINES ++ " lines]\n", true⟩
      else
        ⟨header ++ content ++ "\n```\n", true⟩
    | none =>
      ⟨header ++ "[Unable to read file content]" ++ "\n```\n", true⟩

end fileUtils

/-- JavaScript `String.prototype.startsWith`, via character lists so that it
is kernel-reducible. -/
def jsStartsWith (s pre : String) : Bool :=
  pre.data.isPrefixOf s.data

/-- Infix test on character lists (kernel-reducible). -/
def listIsInfixOf (needle : List Char) : List Char → Bool
  | [] => needle.isPrefixOf []
  | c :: t => needle.isPrefixOf (c :: t) || listIsInfixOf needle t

/-- Substring test, JavaScript `String.prototype.includes`. -/
def containsSubstr (hay needle : String) : Bool :=
  listIsInfixOf needle.data hay.data

/-- Suffix test, JavaScript `String.prototype.endsWith`. -/
def jsEndsWith (s suffix : String) : Bool :=
  suffix.data.reverse.isPrefixOf s.data.reverse

/-- A directory tree as seen through `fs.readdir(dir, { withFileTypes: true })`
and `fs.stat`: entries in listing order; a file carries the outcome of
reading it (`none` models an unreadable file). -/
inductive Fs where
  | file (name : String) (content : Option String)
  | dir (name : String) (entries : List Fs)

/-- Repo-relative path of a child entry:
`path.relative(baseDir, path.join(dir, name))` where `dir` is the directory
at repo-relative path `pre` (empty for the root). -/
def relChild (pre name : String) : String :=
  if pre = "" then name else pre ++ "/" ++ name

/-- Shared skip test of `traverseDirectory` and `generateFileStructure`:
`constants.EXCLUDED_ITEMS.includes(file.name) || ig.ignores(relativePath)`.
The ignore ruleset is abstracted as a predicate on repo-relative paths. -/
def skipEntry (ig : String → Bool) (name rel : String) : Bool :=
  constants.EXCLUDED_ITEMS.contains name || ig rel

namespace fileUtils

mutual

/-- `fileUtils.traverseDirectory`, returning the markdown text appended to
the output file.  `d` is `options.depth`, `c` the `currentDepth` argument,
`pre` the repo-relative path of `dir` (so that `relChild pre name` is the
`path.relative(baseDir, path.join(dir, file.name))` of the code): the
`currentDepth > options.depth` guard at function entry, then the loop over
the directory entries. -/
def traverseDirectory (d : Nat) (ig : String → Bool) (c : Nat) (pre : String)
    (entries : List Fs) : String :=
  if c > d then "" else traverseLoop d ig c pre entries
termination_by (sizeOf entries, 1)

/-- Per-entry loop of `traverseDirectory`, modelled by tail recursion on the
remaining entries. -/
def traverseLoop (d : Nat) (ig : String → Bool) (c : Nat) (pre : String) :
    List Fs → String
  | [] => ""
  | Fs.file name content :: es =>
    (if skipEntry ig name (relChild pre name) then ""
     else (processFile name (relChild pre name) content).emitted) ++
    traverseLoop d ig c pre es
  | Fs.dir name subs :: es =>
    (if skipEntry ig name (relChild pre name) then ""
     else if jsStartsWith name "." then ""
     else
       "\n## " ++ relChild pre name ++ "\n\n" ++
       traverseDirectory d ig (c + 1) (relChild pre name) subs) ++
    traverseLoop d ig c pre es
termination_by l => (sizeOf l, 0)

end

/-- Loop body of `fileUtils.generateFileStructure`: `lastIndex` is fixed at
`entries.length - 1` on entry and `idx` advances over every entry, skipped
or not, exactly as `files.entries()` does. -/
def genStructAux (ig : String → Bool) (d : Nat) (pfx : String) (isLast : Bool)
    (pre : String) (lastIndex : Nat) : Nat → List Fs → String
  | _, [] => ""
  | idx, Fs.file name _ :: es =>
    (if skipEntry ig name (relChild pre name) then ""
     else pfx ++ (if idx == lastIndex then "└── " else "├── ") ++ name ++ "\n") ++
    genStructAux ig d pfx isLast pre lastIndex (idx + 1) es
  | idx, Fs.dir name subs :: es =>
    (if skipEntry ig name (relChild pre name) then ""
     else
       pfx ++ (if idx == lastIndex then "└── " else "├── ") ++ name ++ "\n" ++
       (if 0 < d then
          genStructAux ig (d - 1) (pfx ++ (if isLast then "    " else "│   "))
            (idx == lastIndex) (relChild pre name) (subs.length - 1) 0 subs
        else "")) ++
    genStructAux ig d pfx isLast pre lastIndex (idx + 1) es

/-- `fileUtils.generateFileStructure` on a directory whose entries are
`entries` and whose repo-relative path is `pre`. -/
def generateFileStructure (d : Nat) (ig : String → Bool) (pfx : String)
    (isLast : Bool) (pre : String) (entries : List Fs) : String :=
  genStructAux ig d pfx isLast pre (entries.length - 1) 0 entries

/-- Candidate filename produced by iteration `counter` of
`fileUtils.getUniqueFilename`: `${nameWithoutExt}(${counter})${ext}` where
`nameWithoutExt = baseFilename.slice(0, -ext.length)` (the empty string when
the extension is empty, matching the JavaScript `slice(0, -0)` behaviour). -/
def uniqCand (base : String) (counter : Nat) : String :=
  let ext := pathExtname base
  let nameWithoutExt :=
    if ext.data.length = 0 then ""
    else String.mk (base.data.take (base.data.length - ext.data.length))
  nameWithoutExt ++ "(" ++ natToString counter ++ ")" ++ ext

/-- Probe loop of `fileUtils.getUniqueFilename`.  `ex` is the list of paths
that exist (`fs.access` succeeds exactly on them), `filename` the candidate
currently probed, `counter` the next counter value.  Fuel makes the
definition total; `getUniqueFilename` supplies enough fuel for any finite
file system (see `getUniqueFilename_isSome`). -/
def getUniqueFilenameAux (ex : List String) (base : String) :
    String → Nat → Nat → Option String
  | _, _, 0 => none
  | filename, counter, fuel + 1 =>
    if ex.contains filename then
      getUniqueFilenameAux ex base (uniqCand base counter) (counter + 1) fuel
    else some filename

/-- `fileUtils.getUniqueFilename` against the finite set `ex` of existing
paths. -/
def getUniqueFilename (ex : List String) (base : String) : Option String :=
  getUniqueFilenameAux ex base base 1 (ex.length + 2)

/-- The sequence of filenames probed by `getUniqueFilename`: the base name
first, then the counter-suffixed candidates. -/
def uniqVisit (base : String) : Nat → String
  | 0 => base
  | j + 1 => uniqCand base (j + 1)

/-- Recursion-free rendering of one directory level by the assembler: what
`traverseDirectory` emits when its depth budget is exhausted at this level
(subdirectories contribute their heading and nothing below it). -/
def traverseFloor (ig : String → Bool) (pre : String) : List Fs → String
  | [] => ""
  | Fs.file name content :: es =>
    (if skipEntry ig name (relChild pre name) then ""
     else (processFile name (relChild pre name) content).emitted) ++
    traverseFloor ig pre es
  | Fs.dir name _ :: es =>
    (if skipEntry ig name (relChild pre name) then ""
     else if jsStartsWith name "." then ""
     else "\n## " ++ relChild pre name ++ "\n\n") ++
    traverseFloor ig pre es

/-- Recursion-free rendering of a two-level traversal: root files in full,
immediate subdirectories with their own floor rendering, nothing deeper. -/
def traverseLevel1 (ig : String → Bool) (pre : String) : List Fs → String
  | [] => ""
  | Fs.file name content :: es =>
    (if skipEntry ig name (relChild pre name) then ""
     else (processFile name (relChild pre name) content).emitted) ++
    traverseLevel1 ig pre es
  | Fs.dir name subs :: es =>
    (if skipEntry ig name (relChild pre name) then ""
     else if jsStartsWith name "." then ""
     else
       "\n## " ++ relChild pre name ++ "\n\n" ++
       traverseFloor ig (relChild pre name) subs) ++
    traverseLevel1 ig pre es

/-- Recursion-free rendering of one directory level by the structure
renderer: the listing lines of `genStructAux` without any descent. -/
def genStructFloorAux (ig : String → Bool) (pfx : String) (pre : String)
    (lastIndex : Nat) : Nat → List Fs → String
  | _, [] => ""
  | idx, Fs.file name _ :: es =>
    (if skipEntry ig name (relChild pre name) then ""
     else pfx ++ (if idx == lastIndex then "└── " else "├── ") ++ name ++ "\n") ++
    genStructFloorAux ig pfx pre lastIndex (idx + 1) es
  | idx, Fs.dir name _ :: es =>
    (if skipEntry ig name (relChild pre name) then ""
     else pfx ++ (if idx == lastIndex then "└── " else "├── ") ++ name ++ "\n") ++
    genStructFloorAux ig pfx pre lastIndex (idx + 1) es

/-- Recursion-free rendering of `generateFileStructure` at depth zero. -/
def generateFileStructureFloor (ig : String → Bool) (pfx : String)
    (pre : String) (entries : List Fs) : String :=
  genStructFloorAux ig pfx pre (entries.length - 1) 0 entries

end fileUtils

/-! JavaScript JSON values and the runtime facilities `apiUtils` relies on:
`JSON.parse`, `JSON.stringify`, truthiness, string coercion, and the
file-spec extraction regular expression. -/

/-- A parsed JSON value.  Numbers keep their source lexeme: the code never
computes with response numbers, it only tests truthiness and re-serializes
them. -/
inductive Json where
  | null
  | bool (b : Bool)
  | num (raw : String)
  | str (s : String)
  | arr (elems : List Json)
  | obj (fields : List (String × Json))

/-- JavaScript property access `j[k]`: `none` models `undefined` (also for
access on non-objects). -/
def jsField (j : Json) (k : String) : Option Json :=
  match j with
  | Json.obj fs => (fs.find? (fun kv => kv.1 == k)).map Prod.snd
  | _ => none

/-- True when the decimal lexeme of a JSON number denotes zero (all mantissa
digits are `0`). -/
def numLexemeIsZero (raw : String) : Bool :=
  (((raw.data.filter (fun c => c ≠ '-' ∧ c ≠ '.')).takeWhile
    (fun c => c ≠ 'e' ∧ c ≠ 'E')).all (· = '0'))

/-- JavaScript truthiness of a JSON value. -/
def jsTruthy : Json → Bool
  | Json.null => false
  | Json.bool b => b
  | Json.num raw => !numLexemeIsZero raw
  | Json.str s => !(s == "")
  | Json.arr _ => true
  | Json.obj _ => true

/-- Truthiness of a possibly-`undefined` value. -/
def truthyOpt : Option Json → Bool
  | some v => jsTruthy v
  | none => false

/-- `data.output || data.answer || ""` of `sendQueryToRukh`: the first
truthy of the two fields, else the empty string. -/
def responseContentVal (data : Json) : Json :=
  if truthyOpt (jsField data "output") then (jsField data "output").getD (Json.str "")
  else if truthyOpt (jsField data "answer") then (jsField data "answer").getD (Json.str "")
  else Json.str ""

/-- Hexadecimal digit value. -/
def hexVal (c : Char) : Option Nat :=
  if '0' ≤ c ∧ c ≤ '9' then some (c.toNat - 48)
  else if 'a' ≤ c ∧ c ≤ 'f' then some (c.toNat - 87)
  else if 'A' ≤ c ∧ c ≤ 'F' then some (c.toNat - 55)
  else none

/-- JSON whitespace. -/
def jsonWs (c : Char) : Bool :=
  c = ' ' ∨ c = '\t' ∨ c = '\n' ∨ c = '\r'

/-- Body of a JSON string after its opening quote: the decoded characters
and the input remaining after the closing quote.  (A `\u` escape decodes to
the code unit; an unpaired surrogate degrades to the replacement behaviour
of `Char.ofNat`, a corner no claim touches.) -/
def parseStringBody : Nat → List Char → Option (List Char × List Char)
  | 0, _ => none
  | _ + 1, [] => none
  | fuel + 1, c :: cs =>
    if c = '"' then some ([], cs)
    else if c = '\\' then
      match cs with
      | [] => none
      | e :: cs' =>
        let dec : Option (Char × List Char) :=
          if e = '"' then some ('"', cs')
          else if e = '\\' then some ('\\', cs')
          else if e = '/' then some ('/', cs')
          else if e = 'b' then some ('\x08', cs')
          else if e = 'f' then some ('\x0c', cs')
          else if e = 'n' then some ('\n', cs')
          else if e = 'r' then some ('\r', cs')
          else if e = 't' then some ('\t', cs')
          else if e = 'u' then
            match cs' with
            | h1 :: h2 :: h3 :: h4 :: cs'' =>
              match hexVal h1, hexVal h2, hexVal h3, hexVal h4 with
              | some a, some b, some c2, some d2 =>
                some (Char.ofNat (((a * 16 + b) * 16 + c2) * 16 + d2), cs'')
              | _, _, _, _ => none
            | _ => none
          else none
        match dec with
        | some (ch, rest) =>
          match parseStringBody fuel rest with
          | some (body, rest') => some (ch :: body, rest')
          | none => none
        | none => none
    else if c.toNat < 32 then none
    else
      match parseStringBody fuel cs with
      | some (body, rest') => some (c :: body, rest')
      | none => none

/-- Lexes a JSON number, returning its lexeme and the rest. -/
def lexNumber (l : List Char) : Option (List Char × List Char) :=
  let (sign, l1) :=
    match l with
    | '-' :: rest => (['-'], rest)
    | _ => (([] : List Char), l)
  match l1 with
  | [] => none
  | c :: _ =>
    if ¬ ('0' ≤ c ∧ c ≤ '9') then none
    else
      let intPart := l1.takeWhile (fun d => '0' ≤ d ∧ d ≤ '9')
      let afterInt := l1.dropWhile (fun d => '0' ≤ d ∧ d ≤ '9')
      let (fracPart, afterFrac) :=
        match afterInt with
        | '.' :: ds =>
          let f := ds.takeWhile (fun d => '0' ≤ d ∧ d ≤ '9')
          if f = [] then ([], afterInt)
          else ('.' :: f, ds.dropWhile (fun d => '0' ≤ d ∧ d ≤ '9'))
        | _ => ([], afterInt)
      let (expPart, afterExp) :=
        match afterFrac with
        | e :: es =>
          if e = 'e' ∨ e = 'E' then
            let (es1, sgn) :=
              match es with
              | s :: es' => if s = '+' ∨ s = '-' then (es', [s]) else (es, [])
              | [] => (es, [])
            let dgs := es1.takeWhile (fun d => '0' ≤ d ∧ d ≤ '9')
            if dgs = [] then ([], afterFrac)
            else (e :: (sgn ++ dgs), es1.dropWhile (fun d => '0' ≤ d ∧ d ≤ '9'))
          else ([], afterFrac)
        | [] => ([], afterFrac)
      some (sign ++ intPart ++ fracPart ++ expPart, afterExp)

mutual

/-- Recursive-descent `JSON.parse`, fuel-based so that every definition is
structurally recursive and kernel-reducible. -/
def parseJsonVal : Nat → List Char → Option (Json × List Char)
  | 0, _ => none
  | fuel + 1, l =>
    let l := l.dropWhile jsonWs
    match l with
    | [] => none
    | '"' :: cs =>
      match parseStringBody (cs.length + 1) cs with
      | some (body, rest) => some (Json.str (String.mk body), rest)
      | none => none
    | '\x7b' :: cs =>
      let cs' := cs.dropWhile jsonWs
      match cs' with
      | '\x7d' :: rest => some (Json.obj [], rest)
      | _ =>
        match parseObjMembers fuel cs' with
        | some (fs, rest) => some (Json.obj fs, rest)
        | none => none
    | '[' :: cs =>
      let cs' := cs.dropWhile jsonWs
      match cs' with
      | ']' :: rest => some (Json.arr [], rest)
      | _ =>
        match parseArrItems fuel cs' with
        | some (vs, rest) => some (Json.arr vs, rest)
        | none => none
    | c :: _ =>
      if c = 't' then
        if ['t', 'r', 'u', 'e'].isPrefixOf l then some (Json.bool true, l.drop 4)
        else none
      else if c = 'f' then
        if ['f', 'a', 'l', 's', 'e'].isPrefixOf l then some (Json.bool false, l.drop 5)
        else none
      else if c = 'n' then
        if ['n', 'u', 'l', 'l'].isPrefixOf l then some (Json.null, l.drop 4)
        else none
      else
        match lexNumber l with
        | some (raw, rest) => some (Json.num (String.mk raw), rest)
        | none => none

/-- Comma-separated array items up to the closing bracket. -/
def parseArrItems : Nat → List Char → Option (List Json × List Char)
  | 0, _ => none
  | fuel + 1, l =>
    match parseJsonVal fuel l with
    | some (v, rest) =>
      let rest := rest.dropWhile jsonWs
      match rest with
      | ',' :: cs =>
        match parseArrItems fuel cs with
        | some (vs, rest') => some (v :: vs, rest')
        | none => none
      | ']' :: cs => some ([v], cs)
      | _ => none
    | none => none

/-- Comma-separated object members up to the closing brace. -/
def parseObjMembers : Nat → List Char → Option (List (String × Json) × List Char)
  | 0, _ => none
  | fuel + 1, l =>
    match l.dropWhile jsonWs with
    | '"' :: cs =>
      match parseStringBody (cs.length + 1) cs with
      | some (key, rest) =>
        match rest.dropWhile jsonWs with
        | ':' :: cs2 =>
          match parseJsonVal fuel cs2 with
          | some (v, rest2) =>
            let rest2 := rest2.dropWhile jsonWs
            match rest2 with
            | ',' :: cs3 =>
              match parseObjMembers fuel cs3 with
              | some (fs, rest3) => some ((String.mk key, v) :: fs, rest3)
              | none => none
            | '\x7d' :: cs3 => some ([(String.mk key, v)], cs3)
            | _ => none
          | none => none
        | _ => none
      | none => none
    | _ => none

end

/-- `JSON.parse` on a string: a value followed only by whitespace. -/
def jsonParse (s : String) : Option Json :=
  match parseJsonVal (2 * s.data.length + 4) s.data with
  | some (v, rest) => if rest.dropWhile jsonWs = [] then some v else none
  | none => none

/-- Four-digit lowercase hexadecimal rendering, for control-character
escapes of `JSON.stringify`. -/
def hexDigitChar (n : Nat) : Char :=
  if n < 10 then Char.ofNat (48 + n) else Char.ofNat (87 + n)

/-- Escape of one character inside a `JSON.stringify` string literal. -/
def escChar (c : Char) : List Char :=
  if c = '"' then ['\\', '"']
  else if c = '\\' then ['\\', '\\']
  else if c = '\n' then ['\\', 'n']
  else if c = '\t' then ['\\', 't']
  else if c = '\r' then ['\\', 'r']
  else if c = '\x08' then ['\\', 'b']
  else if c = '\x0c' then ['\\', 'f']
  else if c.toNat < 32 then
    ['\\', 'u', '0', '0', hexDigitChar (c.toNat / 16), hexDigitChar (c.toNat % 16)]
  else [c]

mutual

/-- `JSON.stringify` (numbers re-emit their source lexeme, a harmless
approximation: the code only feeds it values just produced by
`JSON.parse`). -/
def jsonStringify : Json → String
  | Json.null => "null"
  | Json.bool true => "true"
  | Json.bool false => "false"
  | Json.num raw => raw
  | Json.str s => "\"" ++ String.mk (s.data.map escChar).flatten ++ "\""
  | Json.arr es => "[" ++ stringifyItems es ++ "]"
  | Json.obj fs => "\x7b" ++ stringifyMembers fs ++ "\x7d"

/-- Comma-joined `JSON.stringify` of array elements. -/
def stringifyItems : List Json → String
  | [] => ""
  | [x] => jsonStringify x
  | x :: y :: xs => jsonStringify x ++ "," ++ stringifyItems (y :: xs)

/-- Comma-joined `JSON.stringify` of object members. -/
def stringifyMembers : List (String × Json) → String
  | [] => ""
  | [(k, v)] =>
    "\"" ++ String.mk (k.data.map escChar).flatten ++ "\":" ++ jsonStringify v
  | (k, v) :: x :: xs =>
    "\"" ++ String.mk (k.data.map escChar).flatten ++ "\":" ++ jsonStringify v ++
    "," ++ stringifyMembers (x :: xs)

end

mutual

/-- JavaScript `String(v)` coercion of a JSON value, as a template literal
performs (arrays join their coerced elements with commas, objects print as
`[object Object]`). -/
def jsStringCoerce : Json → String
  | Json.null => "null"
  | Json.bool true => "true"
  | Json.bool false => "false"
  | Json.num raw => raw
  | Json.str s => s
  | Json.arr es => coerceItems es
  | Json.obj _ => "[object Object]"

/-- Comma-joined coercion of array elements (`null` becomes empty, as in
`Array.prototype.toString`). -/
def coerceItems : List Json → String
  | [] => ""
  | [Json.null] => ""
  | [x] => jsStringCoerce x
  | Json.null :: y :: xs => "," ++ coerceItems (y :: xs)
  | x :: y :: xs => jsStringCoerce x ++ "," ++ coerceItems (y :: xs)

end

/-! A small backtracking regular-expression engine, enough for the one
pattern `processResponseForFileUpdates` uses. -/

/-- Regular expressions: literal characters, character classes (possibly
negated), sequencing, ordered alternation and greedy star. -/
inductive RE where
  | eps
  | ch (c : Char)
  | cls (neg : Bool) (cs : List Char)
  | seq (a b : RE)
  | alt (a b : RE)
  | star (r : RE)

/-- Backtracking matcher in continuation-passing style, following the
JavaScript ordering: alternation prefers its left branch, star is greedy.
Returns the remainder accepted by the first successful parse, `none` when
no parse succeeds within `fuel` recursion steps. -/
def reRun : Nat → RE → List Char → (List Char → Option (List Char)) →
    Option (List Char)
  | 0, _, _, _ => none
  | fuel + 1, r, s, k =>
    match r with
    | RE.eps => k s
    | RE.ch c =>
      match s with
      | [] => none
      | x :: xs => if x = c then k xs else none
    | RE.cls neg cs =>
      match s with
      | [] => none
      | x :: xs =>
        if (if neg then !(cs.contains x) else cs.contains x) then k xs else none
    | RE.seq a b => reRun fuel a s (fun rest => reRun fuel b rest k)
    | RE.alt a b =>
      match reRun fuel a s k with
      | some res => some res
      | none => reRun fuel b s k
    | RE.star r' =>
      match reRun fuel r' s (fun rest =>
          if rest.length < s.length then reRun fuel (RE.star r') rest k
          else none) with
      | some res => some res
      | none => k s

/-- Sequencing of a pattern list. -/
def reSeqList (rs : List RE) : RE := rs.foldr RE.seq RE.eps

/-- Literal-string pattern. -/
def reStr (s : String) : RE := reSeqList (s.data.map RE.ch)

/-- One-or-more repetition. -/
def rePlus (r : RE) : RE := RE.seq r (RE.star r)

/-- The `\s*` of the file-spec pattern (the practically occurring JavaScript
whitespace class members). -/
def reWs : RE := RE.star (RE.cls false [' ', '\t', '\n', '\r', '\x0c', '\x0b'])

/-- One `{"fileName": "...", "fileContent": "..."}` item of the file-spec
pattern: `\{\s*"fileName"\s*:\s*"[^"]+"\s*,\s*"fileContent"\s*:\s*"(?:\\"|[^"])+"\s*\}`. -/
def fileSpecItemRE : RE :=
  reSeqList
    [RE.ch '\x7b', reWs, reStr "\"fileName\"", reWs, RE.ch ':', reWs,
     RE.ch '"', rePlus (RE.cls true ['"']), RE.ch '"', reWs, RE.ch ',', reWs,
     reStr "\"fileContent\"", reWs, RE.ch ':', reWs,
     RE.ch '"', rePlus (RE.alt (RE.seq (RE.ch '\\') (RE.ch '"')) (RE.cls true ['"'])),
     RE.ch '"', reWs, RE.ch '\x7d']

/-- The whole file-spec array pattern of `processResponseForFileUpdates`:
`\[\s*item\s*(?:,\s*item\s*)*\]`. -/
def fileSpecArrayRE : RE :=
  reSeqList
    [RE.ch '[', reWs, fileSpecItemRE, reWs,
     RE.star (reSeqList [RE.ch ',', reWs, fileSpecItemRE, reWs]), RE.ch ']']

/-- First match of `r` scanning positions left to right, as
`String.prototype.match` without the global flag: the matched characters. -/
def reSearchFrom (r : RE) (fuel : Nat) : List Char → Option (List Char)
  | [] =>
    match reRun fuel r [] some with
    | some _ => some []
    | none => none
  | x :: xs =>
    match reRun fuel r (x :: xs) some with
    | some rest => some ((x :: xs).take ((x :: xs).length - rest.length))
    | none => reSearchFrom r fuel xs

/-- `data.output.match(jsonRegex)` of `processResponseForFileUpdates`: the
text of the first file-spec array embedded in `s`, if any.  The fuel is far
more than the backtracking depth this pattern can reach on `s`. -/
def matchFileSpecArray (s : String) : Option String :=
  (reSearchFrom fileSpecArrayRE (1000 + 100 * s.data.length) s.data).map String.mk

/-! The response file-update pipeline of `src/utils/api.ts`. -/

/-- Severity of a log record. -/
inductive LogLevel where
  | debug
  | info
  | warn
  | error
deriving DecidableEq

/-- Observable effects of the file-update pipeline: files written (full
path, content) in order, directories created via `mkdirSync` (recursive),
and log records. -/
structure UpdTrace where
  writes : List (String × String)
  dirsCreated : List String
  logs : List (LogLevel × String)
deriving DecidableEq

/-- Empty trace. -/
def trEmpty : UpdTrace := ⟨[], [], []⟩

/-- Single log record trace. -/
def trLog (lv : LogLevel) (m : String) : UpdTrace := ⟨[], [], [(lv, m)]⟩

/-- Trace concatenation in program order. -/
def trAppend (a b : UpdTrace) : UpdTrace :=
  ⟨a.writes ++ b.writes, a.dirsCreated ++ b.dirsCreated, a.logs ++ b.logs⟩

/-- `apiUtils.updateFile` on one spec, against working directory `cwd` and
the `existsSync` predicate `dirEx`.  `path.join` on a non-string `fileName`
throws before the function's own try block, so that case is an error that
escapes to the caller; a non-string `fileContent` makes `writeFileSync`
throw inside the try block, which is caught and logged.  No containment or
sanitization check is performed on the joined path. -/
def updateFile (cwd : String) (dirEx : String → Bool) (spec : Json) :
    Except String UpdTrace :=
  match jsField spec "fileName" with
  | some (Json.str fn) =>
    let filePath := posixJoin2 cwd fn
    let dirPath := posixDirname filePath
    let dirs := if dirEx dirPath then [] else [dirPath]
    match jsField spec "fileContent" with
    | some (Json.str c) =>
      Except.ok ⟨[(filePath, c)], dirs,
        [(LogLevel.info, "Created/Updated file: " ++ fn)]⟩
    | _ =>
      Except.ok ⟨[], dirs,
        [(LogLevel.error, "❌ Error creating/updating file " ++ fn ++ ":")]⟩
  | _ => Except.error "The \"path\" argument must be of type string"

/-- Loop of the `filesToUpdate` branch: every spec goes straight to
`updateFile`; a thrown error aborts the remaining specs. -/
def b1Loop (cwd : String) (dirEx : String → Bool) :
    List Json → UpdTrace × Option String
  | [] => (trEmpty, none)
  | s :: rest =>
    match updateFile cwd dirEx s with
    | Except.ok t =>
      let (t2, e) := b1Loop cwd dirEx rest
      (trAppend t t2, e)
    | Except.error m => (trEmpty, some m)

/-- Loop of the regex-extracted branch: `if (spec.fileName &&
spec.fileContent)` filters by truthiness only. -/
def b2RegexLoop (cwd : String) (dirEx : String → Bool) :
    List Json → UpdTrace × Option String
  | [] => (trEmpty, none)
  | s :: rest =>
    if truthyOpt (jsField s "fileName") && truthyOpt (jsField s "fileContent") then
      match updateFile cwd dirEx s with
      | Except.ok t =>
        let (t2, e) := b2RegexLoop cwd dirEx rest
        (trAppend t t2, e)
      | Except.error m => (trEmpty, some m)
    else b2RegexLoop cwd dirEx rest

/-- Loop of the whole-output-parse branch: specs missing a non-empty string
`fileName` or `fileContent` are skipped with an error log. -/
def b2DirectLoop (cwd : String) (dirEx : String → Bool) :
    List Json → UpdTrace × Option String
  | [] => (trEmpty, none)
  | s :: rest =>
    match jsField s "fileName" with
    | some (Json.str fn) =>
      if fn == "" then
        let (t2, e) := b2DirectLoop cwd dirEx rest
        (trAppend (trLog LogLevel.error
          "❌ Error: A file specification is missing the fileName property") t2, e)
      else
        match jsField s "fileContent" with
        | some (Json.str c) =>
          if c == "" then
            let (t2, e) := b2DirectLoop cwd dirEx rest
            (trAppend (trLog LogLevel.error
              ("❌ Error: File specification for " ++ fn ++
               " is missing the fileContent property")) t2, e)
          else
            match updateFile cwd dirEx s with
            | Except.ok t =>
              let (t2, e) := b2DirectLoop cwd dirEx rest
              (trAppend t t2, e)
            | Except.error m => (trEmpty, some m)
        | _ =>
          let (t2, e) := b2DirectLoop cwd dirEx rest
          (trAppend (trLog LogLevel.error
            ("❌ Error: File specification for " ++ fn ++
             " is missing the fileContent property")) t2, e)
    | _ =>
      let (t2, e) := b2DirectLoop cwd dirEx rest
      (trAppend (trLog LogLevel.error
        "❌ Error: A file specification is missing the fileName property") t2, e)

/-- Direct `JSON.parse(data.output)` stage of
`processResponseForFileUpdates` (reached when the regex stage found no
usable array): an array, even an empty one, drives the update loop; parse
failure, or an error thrown by the loop, is caught by the enclosing catch
and logged at debug level; a non-array parse does nothing. -/
def directParseStage (cwd : String) (dirEx : String → Bool) (s : String) :
    UpdTrace :=
  match jsonParse s with
  | none =>
    trLog LogLevel.debug
      "Response is not a valid JSON array, continuing with normal processing."
  | some (Json.arr l) =>
    let head := trLog LogLevel.info
      ("\nFound " ++ natToString l.length ++
       " file(s) to create/update from API response...\n")
    let (t, e) := b2DirectLoop cwd dirEx l
    match e with
    | none => trAppend head (trAppend t (trLog LogLevel.info "Done! ✅"))
    | some _ =>
      trAppend head (trAppend t (trLog LogLevel.debug
        "Response is not a valid JSON array, continuing with normal processing."))
  | some _ => trEmpty

/-- `apiUtils.processResponseForFileUpdates`: the `filesToUpdate` field
wins when it is a non-empty array; otherwise a string-typed truthy `output`
field is searched with the file-spec regex, then parsed as JSON directly.
Exceptions thrown by the branches are caught exactly where the source
catches them. -/
def processResponseForFileUpdates (cwd : String) (dirEx : String → Bool)
    (data : Json) : UpdTrace :=
  match jsField data "filesToUpdate" with
  | some (Json.arr (s :: ss)) =>
    let head := trLog LogLevel.info
      ("Found " ++ natToString (s :: ss).length ++
       " file(s) to update from filesToUpdate field...\n")
    let (t, e) := b1Loop cwd dirEx (s :: ss)
    match e with
    | none => trAppend head (trAppend t (trLog LogLevel.info "Done! ✅"))
    | some m =>
      trAppend head (trAppend t (trLog LogLevel.error
        ("Error processing API response for file updates: " ++ m)))
  | _ =>
    match jsField data "output" with
    | some (Json.str s) =>
      if s == "" then trEmpty
      else
        match matchFileSpecArray s with
        | some m =>
          match jsonParse m with
          | some (Json.arr (x :: xs)) =>
            let head := trLog LogLevel.info
              ("\nFound " ++ natToString (x :: xs).length ++
               " file(s) to create/update from JSON in output...\n")
            let (t, e) := b2RegexLoop cwd dirEx (x :: xs)
            match e with
            | none => trAppend head (trAppend t (trLog LogLevel.info "Done! ✅"))
            | some _ =>
              trAppend head (trAppend t
                (trAppend (trLog LogLevel.error "Failed to parse JSON in output:")
                  (directParseStage cwd dirEx s)))
          | some _ => directParseStage cwd dirEx s
          | none =>
            trAppend (trLog LogLevel.error "Failed to parse JSON in output:")
              (directParseStage cwd dirEx s)
        | none => directParseStage cwd dirEx s
    | _ => trEmpty

/-! The query transport `sendQueryToRukh` of `src/utils/api.ts`. -/

/-- Outcome of one `fetch` of the retry loop: an HTTP response (status and
body text), or a thrown network/timeout error with its message. -/
inductive AttemptResult where
  | http (status : Nat) (body : String)
  | netErr (msg : String)

/-- Error-detail extraction for a non-2xx response:
`errorJson.message || errorJson.error || JSON.stringify(errorJson)` when the
body parses as JSON, else the first 200 characters of the body. -/
def errDetails (body : String) : String :=
  match jsonParse body with
  | some j =>
    if truthyOpt (jsField j "message") then
      jsStringCoerce ((jsField j "message").getD Json.null)
    else if truthyOpt (jsField j "error") then
      jsStringCoerce ((jsField j "error").getD Json.null)
    else jsonStringify j
  | none => String.mk (body.data.take 200)

/-- The `catch (fetchError)` handler of the retry loop: it receives every
error thrown inside the loop body — network errors, but also the
authentication and non-retryable-status errors thrown just above it — and
retries unless this was the last permitted attempt. -/
def caughtRetry (ac : Nat) (m : String)
    (recurse : Unit → Nat × Except String (Nat × String)) :
    Nat × Except String (Nat × String) :=
  if ac < constants.MAX_RETRIES - 1 then
    let (n, res) := recurse ()
    (n + 1, res)
  else
    (1, Except.error ("Failed to connect to API after " ++
      natToString constants.MAX_RETRIES ++ " attempts: " ++ m))

/-- The `while (attemptCount < MAX_RETRIES)` loop of `sendQueryToRukh`.
`r` is the number of loop iterations the `while` condition still permits
(`MAX_RETRIES - attemptCount`, maintained by every recursion), `ac` the
`attemptCount`.  The result counts the `fetch` calls issued and gives the
successful response or the thrown error; the fuel-exhausted base case is
exactly the post-loop `if (!response || !response.ok)` throw. -/
def retryLoopAux (attempts : Nat → AttemptResult) :
    Nat → Nat → Nat × Except String (Nat × String)
  | 0, _ => (0, Except.error "All API request attempts failed")
  | r + 1, ac =>
    match attempts ac with
    | AttemptResult.http st body =>
      if 200 ≤ st ∧ st ≤ 299 then (1, Except.ok (st, body))
      else if st = 401 then
        caughtRetry ac "Authentication failed. Please check your API credentials."
          (fun _ => retryLoopAux attempts r (ac + 1))
      else if st = 429 then
        let (n, res) := retryLoopAux attempts r (ac + 1)
        (n + 1, res)
      else
        let details := errDetails body
        if st = 500 ∨ st = 502 ∨ st = 503 ∨ st = 504 then
          let (n, res) := retryLoopAux attempts r (ac + 1)
          (n + 1, res)
        else
          caughtRetry ac
            ("API request failed with status " ++ natToString st ++ ": " ++ details)
            (fun _ => retryLoopAux attempts r (ac + 1))
    | AttemptResult.netErr m =>
      caughtRetry ac m (fun _ => retryLoopAux attempts r (ac + 1))

/-- Entry into the retry loop, `attemptCount = 0`. -/
def runRetryLoop (attempts : Nat → AttemptResult) :
    Nat × Except String (Nat × String) :=
  retryLoopAux attempts constants.MAX_RETRIES 0

/-- Environment of one `sendQueryToRukh` call: the outcomes of every
external interaction it can perform.  `challenge`, `signData` and
`walletAddress` only shape the multipart payload (which carries no
observable effect in this model); `format` is
`markdownUtils.formatMarkdownForTerminal`, the purely cosmetic terminal
colorizer, kept opaque. -/
structure SqEnv where
  fileAccessible : Bool
  readError : Option String
  fileContent : String
  challenge : Option (String × String)
  signData : Option (String × String × String)
  walletAddress : String
  attempts : Nat → AttemptResult
  existing : List String
  cwd : String
  dirExists : String → Bool
  format : String → String

/-- Observable outcome of `sendQueryToRukh`: the string it resolves to, the
number of HTTP attempts issued, the parsed response object handed to
`processResponseForFileUpdates` (if that call was reached), the trace of
the update pipeline, and the unique path the answer was saved under. -/
structure SqResult where
  answer : String
  fetches : Nat
  handed : Option Json
  updTrace : UpdTrace
  savedTo : Option String

/-- Result of the outer `catch` of `sendQueryToRukh`: every thrown `Error`
resolves to a prefixed human-readable string. -/
def sqFail (m : String) (fetches : Nat) : SqResult :=
  ⟨"Failed to get response from Rukh API: " ++ m, fetches, none, trEmpty, none⟩

/-- `apiUtils.sendQueryToRukh` against environment `env`.  The body follows
the source order: file access validation, file read, authentication (whose
failures are caught and never fatal, and which does not affect the result),
the retry loop, raw-response persistence (always succeeds in this model and
is not part of the trace), `JSON.parse`, content extraction with the
`Missing content` guard, unique-filename probing and answer persistence,
terminal formatting, and only then the file-update pipeline.  A truthy
non-string content makes `formatMarkdownForTerminal` throw a `TypeError`
(`markdown.replace is not a function`) before the updater runs.  The
`none` branch of the filename probe is unreachable
(`fileUtils.getUniqueFilename_isSome`). -/
def sendQueryToRukh (env : SqEnv) (query filePath : String) : SqResult :=
  if !env.fileAccessible then
    sqFail ("Cannot access file at path: " ++ filePath) 0
  else
    match env.readError with
    | some m => sqFail m 0
    | none =>
      let (fetches, loopRes) := runRetryLoop env.attempts
      match loopRes with
      | Except.error m => sqFail m fetches
      | Except.ok (_st, body) =>
        match jsonParse body with
        | none => sqFail "Failed to parse API response as JSON" fetches
        | some data =>
          let contentVal := responseContentVal data
          if !(jsTruthy contentVal) then
            sqFail "Missing content in API response" fetches
          else
            let zhankaiDir := posixJoin2 env.cwd constants.ZHANKAI_DIR
            let queryFilePath := posixJoin2 zhankaiDir "query.md"
            match fileUtils.getUniqueFilename env.existing queryFilePath with
            | none => sqFail "unique filename probe exhausted" fetches
            | some uniqueName =>
              match contentVal with
              | Json.str contentStr =>
                let t := processResponseForFileUpdates env.cwd env.dirExists data
                ⟨env.format contentStr, fetches, some data, t, some uniqueName⟩
              | _ => sqFail "markdown.replace is not a function" fetches

/-! Helper lemmas. -/

theorem toDigitsRevAux_lt_ten :
    ∀ fuel n d, d ∈ toDigitsRevAux fuel n → d < 10 := by
  intro fuel
  induction fuel with
  | zero => intro n d hd; simp [toDigitsRevAux] at hd
  | succ f ih =>
    intro n d hd
    rw [toDigitsRevAux] at hd
    split at hd
    · simp at hd
    · rcases List.mem_cons.mp hd with h | h
      · subst h; exact Nat.mod_lt _ (by omega)
      · exact ih _ _ h

theorem fromDigitsRev_toDigitsRevAux :
    ∀ fuel n, n ≤ fuel → fromDigitsRev (toDigitsRevAux fuel n) = n := by
  intro fuel
  induction fuel with
  | zero =>
    intro n hn
    have h0 : n = 0 := Nat.le_zero.mp hn
    subst h0
    rfl
  | succ f ih =>
    intro n hn
    rw [toDigitsRevAux]
    split
    · simp [fromDigitsRev]; omega
    · rw [fromDigitsRev, ih (n / 10) (by omega)]
      omega

theorem toDigitsRev_injective {a b : Nat}
    (h : toDigitsRev a = toDigitsRev b) : a = b := by
  have ha := fromDigitsRev_toDigitsRevAux a a le_rfl
  have hb := fromDigitsRev_toDigitsRevAux b b le_rfl
  unfold toDigitsRev at h
  rw [h, hb] at ha
  exact ha.symm

theorem digitToChar_inj :
    ∀ d, d < 10 → ∀ e, e < 10 → digitToChar d = digitToChar e → d = e := by
  decide

theorem map_digitToChar_inj :
    ∀ l1 l2 : List Nat, (∀ d ∈ l1, d < 10) → (∀ d ∈ l2, d < 10) →
      l1.map digitToChar = l2.map digitToChar → l1 = l2 := by
  intro l1
  induction l1 with
  | nil => intro l2 _ _ h; cases l2 with
    | nil => rfl
    | cons e es => simp at h
  | cons d ds ih =>
    intro l2 h1 h2 h
    cases l2 with
    | nil => simp at h
    | cons e es =>
      simp only [List.map, List.cons.injEq] at h
      have hde := digitToChar_inj d (h1 d (by simp)) e (h2 e (by simp)) h.1
      subst hde
      rw [ih es (fun x hx => h1 x (by simp [hx])) (fun x hx => h2 x (by simp [hx])) h.2]

theorem natToString_injective : Function.Injective natToString := by
  intro a b h
  unfold natToString at h
  by_cases ha : a = 0 <;> by_cases hb : b = 0
  · omega
  · rw [if_pos ha, if_neg hb] at h
    have hd : (["0".data.head!] : List Char) = ['0'] := rfl
    have h' : ['0'] = (toDigitsRev b).reverse.map digitToChar := congrArg String.data h
    have : ([0] : List Nat) = (toDigitsRev b).reverse := by
      refine map_digitToChar_inj _ _ (by intro x hx; simp at hx; omega)
        (fun x hx => toDigitsRevAux_lt_ten _ _ _ (List.mem_reverse.mp hx)) ?_
      simpa [digitToChar] using h'
    have hb0 : toDigitsRev b = [0] := by
      have := congrArg List.reverse this
      simpa using this.symm
    have := fromDigitsRev_toDigitsRevAux b b le_rfl
    rw [toDigitsRev] at hb0
    rw [hb0] at this
    simp [fromDigitsRev] at this
    omega
  · rw [if_neg ha, if_pos hb] at h
    have h' : (toDigitsRev a).reverse.map digitToChar = ['0'] := congrArg String.data h
    have : (toDigitsRev a).reverse = ([0] : List Nat) := by
      refine map_digitToChar_inj _ _
        (fun x hx => toDigitsRevAux_lt_ten _ _ _ (List.mem_reverse.mp hx))
        (by intro x hx; simp at hx; omega) ?_
      simpa [digitToChar] using h'
    have ha0 : toDigitsRev a = [0] := by
      have := congrArg List.reverse this
      simpa using this
    have := fromDigitsRev_toDigitsRevAux a a le_rfl
    rw [toDigitsRev] at ha0
    rw [ha0] at this
    simp [fromDigitsRev] at this
    omega
  · rw [if_neg ha, if_neg hb] at h
    have h' : (toDigitsRev a).reverse.map digitToChar =
        (toDigitsRev b).reverse.map digitToChar := congrArg String.data h
    have := map_digitToChar_inj _ _
      (fun x hx => toDigitsRevAux_lt_ten _ _ _ (List.mem_reverse.mp hx))
      (fun x hx => toDigitsRevAux_lt_ten _ _ _ (List.mem_reverse.mp hx)) h'
    have hrev := congrArg List.reverse this
    simp only [List.reverse_reverse] at hrev
    exact toDigitsRev_injective hrev

namespace fileUtils

theorem uniqCand_injective (base : String) :
    Function.Injective (uniqCand base) := by
  intro i j h
  unfold uniqCand at h
  have h' := congrArg String.data h
  simp only [String.data_append, List.append_assoc] at h'
  have h2 := List.append_cancel_left h'
  have h3 : (natToString i).data = (natToString j).data := by simpa using h2
  exact natToString_injective (String.ext h3)

theorem uniqVisit_shift (base : String) (s j : Nat) :
    uniqVisit base (s + (j + 1)) = uniqVisit base ((s + 1) + j) := by
  have : s + (j + 1) = (s + 1) + j := by omega
  rw [this]

theorem getUniqueFilenameAux_isSome_of_free (ex : List String) (base : String) :
    ∀ fuel s,
      (∃ k, k < fuel ∧ ex.contains (uniqVisit base (s + k)) = false) →
      (getUniqueFilenameAux ex base (uniqVisit base s) (s + 1) fuel).isSome := by
  intro fuel
  induction fuel with
  | zero =>
    intro s ⟨k, hk, _⟩
    omega
  | succ f ih =>
    intro s ⟨k, hk, hfree⟩
    rw [getUniqueFilenameAux]
    split
    · rename_i hmem
      have hk0 : k ≠ 0 := by
        intro h0
        subst h0
        simp only [Nat.add_zero] at hfree
        rw [hmem] at hfree
        exact absurd hfree (by decide)
      obtain ⟨k', rfl⟩ : ∃ k', k = k' + 1 := ⟨k - 1, by omega⟩
      have hcand : uniqCand base (s + 1) = uniqVisit base (s + 1) := rfl
      rw [hcand]
      exact ih (s + 1)
        ⟨k', by omega, by rw [← uniqVisit_shift base s k']; exact hfree⟩
    · simp

theorem getUniqueFilename_isSome (ex : List String) (base : String) :
    (getUniqueFilename ex base).isSome := by
  have hfree : ∃ k, k < ex.length + 2 ∧ ex.contains (uniqVisit base k) = false := by
    by_contra hall
    push_neg at hall
    have hall' : ∀ k, k < ex.length + 2 → ex.contains (uniqVisit base k) = true := by
      intro k hk
      have := hall k hk
      revert this
      cases ex.contains (uniqVisit base k) <;> simp
    have hsub : ((List.range' 1 (ex.length + 1)).map (uniqCand base)) ⊆ ex := by
      intro x hx
      obtain ⟨i, hi, rfl⟩ := List.mem_map.mp hx
      have hi' := List.mem_range'_1.mp hi
      have : uniqCand base i = uniqVisit base i := by
        obtain ⟨i', rfl⟩ : ∃ i', i = i' + 1 := ⟨i - 1, by omega⟩
        rfl
      rw [this]
      have hmem := hall' i (by omega)
      exact List.elem_iff.mp hmem
    have hnodup : ((List.range' 1 (ex.length + 1)).map (uniqCand base)).Nodup :=
      (List.nodup_range' 1 (ex.length + 1)).map (uniqCand_injective base)
    have hle := (List.subperm_of_subset hnodup hsub).length_le
    simp at hle
  obtain ⟨k, hk, hfree⟩ := hfree
  unfold getUniqueFilename
  have h0 : (uniqVisit base 0) = base := rfl
  rw [← h0]
  exact getUniqueFilenameAux_isSome_of_free ex base (ex.length + 2) 0
    ⟨k, hk, by simpa using hfree⟩

theorem getUniqueFilenameAux_spec (ex : List String) (base : String) :
    ∀ fuel s k, k < fuel →
      (∀ j, j < k → ex.contains (uniqVisit base (s + j)) = true) →
      ex.contains (uniqVisit base (s + k)) = false →
      getUniqueFilenameAux ex base (uniqVisit base s) (s + 1) fuel =
        some (uniqVisit base (s + k)) := by
  intro fuel
  induction fuel with
  | zero => intro s k hk; omega
  | succ f ih =>
    intro s k hk hbusy hfree
    rw [getUniqueFilenameAux]
    split
    · rename_i hmem
      have hk0 : k ≠ 0 := by
        intro h0
        subst h0
        simp only [Nat.add_zero] at hfree
        rw [hmem] at hfree
        exact absurd hfree (by decide)
      obtain ⟨k', rfl⟩ : ∃ k', k = k' + 1 := ⟨k - 1, by omega⟩
      have hcand : uniqCand base (s + 1) = uniqVisit base (s + 1) := rfl
      rw [hcand, uniqVisit_shift base s k']
      exact ih (s + 1) k' (by omega)
        (fun j hj => by
          rw [← uniqVisit_shift base s j]
          exact hbusy (j + 1) (by omega))
        (by rw [← uniqVisit_shift base s k']; exact hfree)
    · rename_i hmem
      have hk0 : k = 0 := by
        by_contra h0
        have hb := hbusy 0 (by omega)
        simp only [Nat.add_zero] at hb
        exact hmem hb
      subst hk0
      simp

theorem traverseDirectory_past_depth (d : Nat) (ig : String → Bool) (c : Nat)
    (pre : String) (es : List Fs) (h : d < c) :
    traverseDirectory d ig c pre es = "" := by
  rw [traverseDirectory, if_pos h]

theorem traverseLoop_floor (d : Nat) (ig : String → Bool) (pre : String) :
    ∀ es, traverseLoop d ig d pre es = traverseFloor ig pre es := by
  intro es
  induction es with
  | nil => simp [traverseLoop, traverseFloor]
  | cons e es ih =>
    cases e with
    | file name content => simp [traverseLoop, traverseFloor, ih]
    | dir name subs =>
      have hsub : traverseDirectory d ig (d + 1) (relChild pre name) subs = "" :=
        traverseDirectory_past_depth _ _ _ _ _ (by omega)
      simp [traverseLoop, traverseFloor, hsub, ih]

theorem traverseDirectory_floor (d : Nat) (ig : String → Bool) (pre : String)
    (es : List Fs) :
    traverseDirectory d ig d pre es = traverseFloor ig pre es := by
  rw [traverseDirectory, if_neg (lt_irrefl d)]
  exact traverseLoop_floor d ig pre es

theorem traverseLoop_level1 (ig : String → Bool) (pre : String) :
    ∀ es, traverseLoop 1 ig 0 pre es = traverseLevel1 ig pre es := by
  intro es
  induction es with
  | nil => simp [traverseLoop, traverseLevel1]
  | cons e es ih =>
    cases e with
    | file name content => simp [traverseLoop, traverseLevel1, ih]
    | dir name subs =>
      have hsub := traverseDirectory_floor 1 ig (relChild pre name) subs
      simp [traverseLoop, traverseLevel1, hsub, ih]

theorem traverseDirectory_level1 (ig : String → Bool) (pre : String)
    (es : List Fs) :
    traverseDirectory 1 ig 0 pre es = traverseLevel1 ig pre es := by
  rw [traverseDirectory, if_neg (by omega)]
  exact traverseLoop_level1 ig pre es

theorem genStructAux_floor (ig : String → Bool) (pfx : String) (isLast : Bool)
    (pre : String) (li : Nat) :
    ∀ es idx, genStructAux ig 0 pfx isLast pre li idx es =
      genStructFloorAux ig pfx pre li idx es := by
  intro es
  induction es with
  | nil => intro idx; simp [genStructAux, genStructFloorAux]
  | cons e es ih =>
    intro idx
    cases e with
    | file name content => simp [genStructAux, genStructFloorAux, ih]
    | dir name subs => simp [genStructAux, genStructFloorAux, ih]

theorem generateFileStructure_floor (ig : String → Bool) (pfx : String)
    (isLast : Bool) (pre : String) (es : List Fs) :
    generateFileStructure 0 ig pfx isLast pre es =
      generateFileStructureFloor ig pfx pre es := by
  unfold generateFileStructure generateFileStructureFloor
  exact genStructAux_floor ig pfx isLast pre (es.length - 1) es 0

/-! Claim theorems. -/

/-- C3 (amended): for every non-image file whose newline-split line count
STRICTLY EXCEEDS the ceiling of 500 (the code tests
`lines.length > MAX_FILE_LINES`, so a file with exactly 500 lines is
emitted in full), the emitted markdown block contains exactly the file's
first 30 lines, a closed code fence, and a truncation notice citing 500 as
the threshold. -/
theorem processFile_truncates_strictly_above_ceiling
    (filePath relativePath content : String)
    (himg : isImageFile filePath = false)
    (hlen : constants.MAX_FILE_LINES < (jsSplitNl content).length) :
    processFile filePath relativePath (some content) =
      ⟨"\n### " ++ relativePath ++ "\n\n" ++ "```" ++ getLanguageTag filePath ++
        "\n" ++ joinWith "\n" ((jsSplitNl content).take constants.PREVIEW_LINES) ++
        "\n```\n" ++ "\n[This file was cut: it has more than 500 lines]\n",
       true⟩ := by
  have h500 : natToString constants.MAX_FILE_LINES = "500" := rfl
  unfold processFile
  rw [if_neg (by simp [himg])]
  simp only [h500]
  rw [if_pos hlen]
  simp only [String.append_assoc]
  rfl

set_option maxRecDepth 40000 in
/-- Witness for C3's theorem: a 501-line file is truncated as stated. -/
theorem processFile_truncates_strictly_above_ceiling_witness :
    isImageFile "big.txt" = false ∧
    constants.MAX_FILE_LINES <
      (jsSplitNl (joinWith "\n" (List.replicate 501 "x"))).length ∧
    processFile "big.txt" "big.txt" (some (joinWith "\n" (List.replicate 501 "x"))) =
      ⟨"\n### big.txt" ++ "\n\n" ++ "```" ++ getLanguageTag "big.txt" ++
        "\n" ++ joinWith "\n"
          ((jsSplitNl (joinWith "\n" (List.replicate 501 "x"))).take
            constants.PREVIEW_LINES) ++
        "\n```\n" ++ "\n[This file was cut: it has more than 500 lines]\n",
       true⟩ :=
  ⟨rfl, by decide,
   processFile_truncates_strictly_above_ceiling "big.txt" "big.txt"
     (joinWith "\n" (List.replicate 501 "x")) rfl (by decide)⟩

set_option maxRecDepth 40000 in
/-- C3 (counterexample): a non-image file with exactly 500 lines — "at the
ceiling" in the claim's words — is NOT truncated: its full content is
emitted and no truncation notice appears. -/
theorem processFile_at_ceiling_not_truncated :
    (jsSplitNl (joinWith "\n" (List.replicate 500 "x"))).length =
      constants.MAX_FILE_LINES ∧
    isImageFile "f.txt" = false ∧
    processFile "f.txt" "f.txt" (some (joinWith "\n" (List.replicate 500 "x"))) =
      ⟨"\n### f.txt\n\n```\n" ++ joinWith "\n" (List.replicate 500 "x") ++
        "\n```\n", true⟩ ∧
    containsSubstr
      (processFile "f.txt" "f.txt"
        (some (joinWith "\n" (List.replicate 500 "x")))).emitted
      "[This file was cut" = false :=
  ⟨by decide, rfl, rfl, by decide⟩

/-- C4: for every file whose extension is a recognized image extension,
`processFile` writes the fixed placeholder instead of the content and never
reads the source file — but, contrary to the claim and §4.2/§6 of the
specification (and to the older inline implementation in `src/index.ts`,
which appends a final closing fence), the emitted block ends at the
placeholder: the code fence is NOT closed.  The emitted text is exactly the
heading, the opening fence and the placeholder. -/
theorem processFile_image_placeholder_never_read
    (filePath relativePath : String) (readResult : Option String)
    (himg : isImageFile filePath = true) :
    processFile filePath relativePath readResult =
      ⟨"\n### " ++ relativePath ++ "\n\n" ++ "```" ++ getLanguageTag filePath ++
        "\n" ++ "[This is an image file]", false⟩ := by
  unfold processFile
  rw [if_pos himg]

/-- Witness for C4's theorem: a `.png` file, with the read outcome left
unavailable (`none`) since it is never consulted; the block has no closing
fence and `readAttempted` is false. -/
theorem processFile_image_placeholder_never_read_witness :
    isImageFile "logo.png" = true ∧
    processFile "logo.png" "logo.png" none =
      ⟨"\n### logo.png\n\n```\n[This is an image file]", false⟩ ∧
    jsEndsWith (processFile "logo.png" "logo.png" none).emitted "\n```\n" =
      false :=
  ⟨rfl,
   (processFile_image_placeholder_never_read "logo.png" "logo.png" none rfl).trans
     (by decide),
   by decide⟩

/-- C9: `getUniqueFilename` returns the first candidate of the probe
sequence `base, base(1), base(2), …` that does not exist: it is idempotent
when the requested path does not exist (`k = 0` returns the input
unchanged) and deterministic under collision. -/
theorem getUniqueFilename_first_free (ex : List String) (base : String)
    (k : Nat) (hk : k < ex.length + 2)
    (hbusy : ∀ j, j < k → ex.contains (uniqVisit base j) = true)
    (hfree : ex.contains (uniqVisit base k) = false) :
    getUniqueFilename ex base = some (uniqVisit base k) := by
  unfold getUniqueFilename
  have h0 : (uniqVisit base 0) = base := rfl
  rw [← h0]
  have := getUniqueFilenameAux_spec ex base (ex.length + 2) 0 k hk
    (fun j hj => by simpa using hbusy j hj) (by simpa using hfree)
  simpa using this

/-- Witness for C9's theorem: `file.md` alone collides to `file(1).md`;
with `file(1).md` also existing it collides to `file(2).md`; a fresh name
is returned unchanged. -/
theorem getUniqueFilename_first_free_witness :
    getUniqueFilename ["file.md", "file(1).md"] "file.md" = some "file(2).md" ∧
    getUniqueFilename ["file.md"] "file.md" = some "file(1).md" ∧
    getUniqueFilename [] "file.md" = some "file.md" :=
  ⟨(getUniqueFilename_first_free ["file.md", "file(1).md"] "file.md" 2
      (by decide) (by decide) (by decide)).trans (by decide),
   (getUniqueFilename_first_free ["file.md"] "file.md" 1
      (by decide) (by decide) (by decide)).trans (by decide),
   (getUniqueFilename_first_free [] "file.md" 0
      (by decide) (by decide) (by decide)).trans (by decide)⟩

/-- C5 (counterexample): with configured depth 0 the assembler still emits
level-2 headings for root subdirectories (the heading is written before the
recursive call whose entry guard stops the descent), and with depth 1 a
grandchild directory's heading is emitted — the claim's "no subdirectory
headings at depth 0" and "no grandchild entries at depth 1" are both
false. -/
theorem traverseDirectory_depth0_emits_subdir_headings :
    traverseDirectory 0 (fun _ => false) 0 ""
        [Fs.dir "a" [Fs.file "b.txt" (some "hi")]] = "\n## a\n\n" ∧
    containsSubstr "\n## a\n\n" "## a" = true ∧
    traverseDirectory 1 (fun _ => false) 0 ""
        [Fs.dir "a" [Fs.dir "b" [Fs.file "c.txt" (some "hi")]]] =
      "\n## a\n\n\n## a/b\n\n" ∧
    containsSubstr "\n## a\n\n\n## a/b\n\n" "## a/b" = true := by
  refine ⟨?_, by decide, ?_, by decide⟩
  · simp [traverseDirectory, traverseLoop, skipEntry, relChild, jsStartsWith,
      constants.EXCLUDED_ITEMS]
  · simp [traverseDirectory, traverseLoop, skipEntry, relChild, jsStartsWith,
      constants.EXCLUDED_ITEMS]

/-- C5 (amended): when the depth budget is exhausted (`currentDepth`
reaches the configured depth) the assembler renders exactly the
recursion-free floor — root-level files in full and one heading per non-dot
subdirectory, nothing beneath; with depth 1 it renders files of immediate
subdirectories, whose own subdirectories contribute only headings; past the
configured depth nothing at all is emitted. -/
theorem traverseDirectory_depth_boundary_semantics :
    (∀ (d : Nat) (ig : String → Bool) (pre : String) (es : List Fs),
      traverseDirectory d ig d pre es = traverseFloor ig pre es) ∧
    (∀ (ig : String → Bool) (pre : String) (es : List Fs),
      traverseDirectory 1 ig 0 pre es = traverseLevel1 ig pre es) ∧
    (∀ (d c : Nat) (ig : String → Bool) (pre : String) (es : List Fs),
      d < c → traverseDirectory d ig c pre es = "") :=
  ⟨traverseDirectory_floor, traverseDirectory_level1,
   fun d c ig pre es h => traverseDirectory_past_depth d ig c pre es h⟩

/-- Witness for C5's theorem: a concrete instance of the past-depth clause. -/
theorem traverseDirectory_depth_boundary_semantics_witness :
    (0 : Nat) < 1 ∧
    traverseDirectory 0 (fun _ => false) 1 "" [Fs.file "x.txt" (some "y")] = "" :=
  ⟨by decide,
   traverseDirectory_depth_boundary_semantics.2.2 0 1 (fun _ => false) ""
     [Fs.file "x.txt" (some "y")] (by decide)⟩

/-- C8 (counterexample): the structure renderer does NOT skip
dot-directories: a directory named `.github` (not excluded, not ignored) is
listed by `generateFileStructure` while `traverseDirectory` skips it
entirely. -/
theorem generateFileStructure_lists_dot_directory :
    generateFileStructure 1 (fun _ => false) "" true "" [Fs.dir ".github" []] =
      "└── .github\n" ∧
    traverseDirectory 1 (fun _ => false) 0 "" [Fs.dir ".github" []] = "" := by
  constructor
  · simp [generateFileStructure, genStructAux, skipEntry, relChild,
      constants.EXCLUDED_ITEMS]
  · simp [traverseDirectory, traverseLoop, skipEntry, relChild, jsStartsWith,
      constants.EXCLUDED_ITEMS]

/-- C8 (amended): the structure renderer applies the same excluded-items
and ignore-rule skip as the assembler, and the same depth budget (at depth
0 it renders the recursion-free listing, exactly as the assembler renders
its recursion-free floor at its own boundary) — but it does NOT skip
dot-directories: a dot-named directory that is neither excluded nor
ignored is listed with a connector line and recursed into while the
budget allows, whereas `traverseDirectory` emits nothing for it. -/
theorem generateFileStructure_shares_skip_and_depth_not_dotskip :
    (∀ (d c : Nat) (ig : String → Bool) (pfx pre name : String)
       (isLast : Bool) (subs : List Fs),
      skipEntry ig name (relChild pre name) = true →
      traverseDirectory d ig c pre [Fs.dir name subs] = "" ∧
      generateFileStructure d ig pfx isLast pre [Fs.dir name subs] = "") ∧
    (∀ (d c : Nat) (ig : String → Bool) (pfx pre name : String)
       (subs : List Fs),
      jsStartsWith name "." = true →
      skipEntry ig name (relChild pre name) = false →
      traverseDirectory d ig c pre [Fs.dir name subs] = "" ∧
      generateFileStructure d ig pfx true pre [Fs.dir name subs] =
        pfx ++ "└── " ++ name ++ "\n" ++
        (if 0 < d then
          generateFileStructure (d - 1) ig (pfx ++ "    ") true
            (relChild pre name) subs
         else "")) ∧
    (∀ (ig : String → Bool) (pfx : String) (isLast : Bool) (pre : String)
       (es : List Fs),
      generateFileStructure 0 ig pfx isLast pre es =
        generateFileStructureFloor ig pfx pre es) ∧
    (∀ (d : Nat) (ig : String → Bool) (pre : String) (es : List Fs),
      traverseDirectory d ig d pre es = traverseFloor ig pre es) := by
  refine ⟨?_, ?_, generateFileStructure_floor, traverseDirectory_floor⟩
  · intro d c ig pfx pre name isLast subs h
    constructor
    · rw [traverseDirectory]
      split
      · rfl
      · simp [traverseLoop, h]
    · simp [generateFileStructure, genStructAux, h]
  · intro d c ig pfx pre name subs hdot h
    constructor
    · rw [traverseDirectory]
      split
      · rfl
      · simp [traverseLoop, h, hdot]
    · simp only [generateFileStructure, genStructAux, h, List.length_cons,
        List.length_nil, Nat.zero_add, Nat.sub_self, beq_self_eq_true,
        if_true, Bool.false_eq_true, if_false]
      simp [String.append_assoc]

/-- Witness for C8's theorem: `.git` is excluded and rendered by neither
function; `.github` is a non-excluded dot-directory that the assembler
skips (the renderer lists it, per the counterexample). -/
theorem generateFileStructure_shares_skip_and_depth_not_dotskip_witness :
    skipEntry (fun _ => false) ".git" (relChild "" ".git") = true ∧
    generateFileStructure 3 (fun _ => false) "" true "" [Fs.dir ".git" []] = "" ∧
    jsStartsWith ".github" "." = true ∧
    skipEntry (fun _ => false) ".github" (relChild "" ".github") = false ∧
    traverseDirectory 2 (fun _ => false) 0 "" [Fs.dir ".github" []] = "" :=
  ⟨by decide,
   (generateFileStructure_shares_skip_and_depth_not_dotskip.1 3 0
      (fun _ => false) "" "" ".git" true [] (by decide)).2,
   by decide, by decide,
   (generateFileStructure_shares_skip_and_depth_not_dotskip.2.1 2 0
      (fun _ => false) "" "" ".github" [] (by decide) (by decide)).1⟩

end fileUtils

/-- C1: for every environment and every pair of arguments, `sendQueryToRukh`
resolves to a string: either the formatted textual answer, or a
human-readable error string prefixed `Failed to get response from Rukh
API:` produced by the outer catch — no failure (inaccessible document,
read failure, authentication failure, retry exhaustion, JSON-parse
failure, missing content field) escapes as an exception. -/
theorem sendQueryToRukh_always_resolves_to_string (env : SqEnv)
    (q fp : String) :
    (∃ m, (sendQueryToRukh env q fp).answer =
        "Failed to get response from Rukh API: " ++ m) ∨
    (∃ s, (sendQueryToRukh env q fp).answer = env.format s) := by
  unfold sendQueryToRukh
  repeat'
    first
      | exact Or.inl ⟨_, rfl⟩
      | exact Or.inr ⟨_, rfl⟩
      | split
      | dsimp only

/-- C2: contrary to the claim (and to §4.4 of the specification and the
code's own `For other status codes, don't retry` intent), an HTTP 401 IS
retried: the `throw` in the 401 branch is caught by the loop's own
`catch (fetchError)` handler, which waits and retries.  With every attempt
answering 401, all five permitted fetches are issued, and only then is the
authentication failure surfaced, wrapped in the retry-exhaustion
message. -/
theorem sendQueryToRukh_401_retried_not_fatal :
    (sendQueryToRukh
      ⟨true, none, "# doc", none, none, "",
       fun _ => AttemptResult.http 401 "", [], "/repo", fun _ => false, id⟩
      "q" "/repo/zhankai.md").fetches = 5 ∧
    (sendQueryToRukh
      ⟨true, none, "# doc", none, none, "",
       fun _ => AttemptResult.http 401 "", [], "/repo", fun _ => false, id⟩
      "q" "/repo/zhankai.md").answer =
      "Failed to get response from Rukh API: Failed to connect to API after 5 attempts: Authentication failed. Please check your API credentials." :=
  ⟨rfl, rfl⟩

/-- C6 (counterexample): a successfully received and JSON-parsed response
that carries a non-empty `filesToUpdate` but no textual answer is NOT
handed to the file-update processor: the `Missing content` guard throws
first, so zero files are written and the call resolves to the error
string. -/
theorem sendQueryToRukh_filesToUpdate_without_text_not_applied :
    jsonParse "\x7b\"filesToUpdate\":[\x7b\"fileName\":\"a.ts\",\"fileContent\":\"X\"\x7d]\x7d" =
      some (Json.obj [("filesToUpdate",
        Json.arr [Json.obj [("fileName", Json.str "a.ts"),
                            ("fileContent", Json.str "X")]])]) ∧
    (sendQueryToRukh
      ⟨true, none, "# doc", none, none, "",
       fun _ => AttemptResult.http 200
         "\x7b\"filesToUpdate\":[\x7b\"fileName\":\"a.ts\",\"fileContent\":\"X\"\x7d]\x7d",
       [], "/repo", fun _ => false, id⟩
      "q" "/repo/zhankai.md").handed = none ∧
    (sendQueryToRukh
      ⟨true, none, "# doc", none, none, "",
       fun _ => AttemptResult.http 200
         "\x7b\"filesToUpdate\":[\x7b\"fileName\":\"a.ts\",\"fileContent\":\"X\"\x7d]\x7d",
       [], "/repo", fun _ => false, id⟩
      "q" "/repo/zhankai.md").updTrace = trEmpty ∧
    (sendQueryToRukh
      ⟨true, none, "# doc", none, none, "",
       fun _ => AttemptResult.http 200
         "\x7b\"filesToUpdate\":[\x7b\"fileName\":\"a.ts\",\"fileContent\":\"X\"\x7d]\x7d",
       [], "/repo", fun _ => false, id⟩
      "q" "/repo/zhankai.md").answer =
      "Failed to get response from Rukh API: Missing content in API response" :=
  ⟨rfl, rfl, rfl, rfl⟩

/-- C6 (amended): the full parsed response object is handed to
`processResponseForFileUpdates` exactly when the extracted textual content
(`output || answer || ""`) is a truthy string — regardless of whether
`filesToUpdate` is present; when both fields are missing or empty the call
fails with `Missing content in API response` and no file updates are
applied. -/
theorem sendQueryToRukh_hands_response_iff_content_truthy :
    (∀ (env : SqEnv) (q fp : String) (n st : Nat) (body : String)
       (data : Json) (s : String),
      env.fileAccessible = true →
      env.readError = none →
      runRetryLoop env.attempts = (n, Except.ok (st, body)) →
      jsonParse body = some data →
      responseContentVal data = Json.str s →
      s ≠ "" →
      (sendQueryToRukh env q fp).handed = some data ∧
      (sendQueryToRukh env q fp).updTrace =
        processResponseForFileUpdates env.cwd env.dirExists data) ∧
    (∀ (env : SqEnv) (q fp : String) (n st : Nat) (body : String)
       (data : Json),
      env.fileAccessible = true →
      env.readError = none →
      runRetryLoop env.attempts = (n, Except.ok (st, body)) →
      jsonParse body = some data →
      jsTruthy (responseContentVal data) = false →
      (sendQueryToRukh env q fp).handed = none ∧
      (sendQueryToRukh env q fp).updTrace = trEmpty ∧
      (sendQueryToRukh env q fp).answer =
        "Failed to get response from Rukh API: Missing content in API response") := by
  constructor
  · intro env q fp n st body data s hacc hread hloop hparse hcontent hs
    have hs' : (s == "") = false := by simpa using hs
    obtain ⟨u, hu⟩ := Option.isSome_iff_exists.mp
      (fileUtils.getUniqueFilename_isSome env.existing
        (posixJoin2 (posixJoin2 env.cwd constants.ZHANKAI_DIR) "query.md"))
    unfold sendQueryToRukh
    simp only [hacc, hread, hloop, hparse, hcontent, hu, jsTruthy, hs',
      Bool.not_true, Bool.not_false, Bool.false_eq_true, if_false, if_true]
    refine ⟨?_, ?_⟩ <;> first | rfl | trivial
  · intro env q fp n st body data hacc hread hloop hparse hfalse
    unfold sendQueryToRukh
    simp only [hacc, hread, hloop, hparse, hfalse, Bool.not_true,
      Bool.not_false, Bool.false_eq_true, if_false, if_true]
    refine ⟨?_, ?_, ?_⟩ <;> first | rfl | trivial

/-- Witness for C6's theorem: a 200 response whose body is
`{"output":"hello"}` is handed in full to the update processor. -/
theorem sendQueryToRukh_hands_response_iff_content_truthy_witness :
    (sendQueryToRukh
      ⟨true, none, "# doc", none, none, "",
       fun _ => AttemptResult.http 200 "\x7b\"output\":\"hello\"\x7d",
       [], "/repo", fun _ => false, id⟩
      "q" "/repo/zhankai.md").handed =
      some (Json.obj [("output", Json.str "hello")]) ∧
    (sendQueryToRukh
      ⟨true, none, "# doc", none, none, "",
       fun _ => AttemptResult.http 200 "\x7b\"output\":\"hello\"\x7d",
       [], "/repo", fun _ => false, id⟩
      "q" "/repo/zhankai.md").updTrace =
      processResponseForFileUpdates "/repo" (fun _ => false)
        (Json.obj [("output", Json.str "hello")]) :=
  sendQueryToRukh_hands_response_iff_content_truthy.1
    ⟨true, none, "# doc", none, none, "",
     fun _ => AttemptResult.http 200 "\x7b\"output\":\"hello\"\x7d",
     [], "/repo", fun _ => false, id⟩
    "q" "/repo/zhankai.md" 1 200 "\x7b\"output\":\"hello\"\x7d"
    (Json.obj [("output", Json.str "hello")]) "hello"
    rfl rfl rfl rfl rfl (by decide)

/-- C7: `processResponseForFileUpdates` applied to
`{filesToUpdate: [{fileName: "a/b.ts", fileContent: "X"}]}` writes exactly
`<cwd>/a/b.ts` with content `X`, creating the missing intermediate
directory `<cwd>/a`; applied to a response whose `output` is the string
`not json` it writes zero files and records a single debug-level (not
error-level) log that the content is not a recognized file-update
format. -/
theorem processResponseForFileUpdates_scenarios :
    processResponseForFileUpdates "/repo" (fun _ => false)
      (Json.obj [("filesToUpdate",
        Json.arr [Json.obj [("fileName", Json.str "a/b.ts"),
                            ("fileContent", Json.str "X")]])]) =
      ⟨[("/repo/a/b.ts", "X")], ["/repo/a"],
       [(LogLevel.info, "Found 1 file(s) to update from filesToUpdate field...\n"),
        (LogLevel.info, "Created/Updated file: a/b.ts"),
        (LogLevel.info, "Done! ✅")]⟩ ∧
    processResponseForFileUpdates "/repo" (fun _ => false)
      (Json.obj [("output", Json.str "not json")]) =
      ⟨[], [],
       [(LogLevel.debug,
         "Response is not a valid JSON array, continuing with normal processing.")]⟩ :=
  ⟨rfl, rfl⟩

/-- C10 (amended): `updateFile` resolves the target as the plain
`path.join` of the working directory with the spec's `fileName`, with no
containment or sanitization check, and creates the missing parent
directory at the resolved location; a `fileName` with `..` segments
therefore escapes the working directory — but an absolute `fileName` does
NOT: `path.join` (unlike `path.resolve`) concatenates before normalizing,
so `/etc/passwd` lands at `<cwd>/etc/passwd`, inside the working
directory. -/
theorem updateFile_plain_join_no_containment :
    (∀ (cwd fn c : String) (dirEx : String → Bool),
      updateFile cwd dirEx
        (Json.obj [("fileName", Json.str fn), ("fileContent", Json.str c)]) =
        Except.ok ⟨[(posixJoin2 cwd fn, c)],
          if dirEx (posixDirname (posixJoin2 cwd fn)) then []
          else [posixDirname (posixJoin2 cwd fn)],
          [(LogLevel.info, "Created/Updated file: " ++ fn)]⟩) ∧
    (posixJoin2 "/repo" "../evil.ts" = "/evil.ts" ∧
     jsStartsWith "/evil.ts" "/repo" = false) ∧
    (posixJoin2 "/repo" "/etc/passwd" = "/repo/etc/passwd" ∧
     jsStartsWith "/repo/etc/passwd" "/repo/" = true) := by
  refine ⟨?_, by decide, by decide⟩
  intro cwd fn c dirEx
  rfl

/-- C10 (counterexample): an absolute `fileName` does not make the write
land outside the working directory — `path.join("/repo", "/etc/passwd")`
normalizes to `/repo/etc/passwd`, inside it, and that is where the file is
written and the parent directory created. -/
theorem updateFile_absolute_fileName_lands_inside_cwd :
    updateFile "/repo" (fun _ => false)
      (Json.obj [("fileName", Json.str "/etc/passwd"),
                 ("fileContent", Json.str "X")]) =
      Except.ok ⟨[("/repo/etc/passwd", "X")], ["/repo/etc"],
        [(LogLevel.info, "Created/Updated file: /etc/passwd")]⟩ ∧
    jsStartsWith "/repo/etc/passwd" "/repo/" = true :=
  ⟨rfl, rfl⟩

end Zhankai
